import Mathlib

/-!
Shallow embedding of the concurrent job manager in
src/foundation/worker/worker.go (package worker).

The Go code is concurrent: a buffered channel of capacity tokens
(field sem), a one-way shutdown latch (the channel isShutdown, closed
by Shutdown), a mutex-protected registry map from job key to the
job cancel function (field running), and a WaitGroup (field wg).

We embed it as a small-step transition system.  Each constructor of
Step is one atomic action of the Go program:

  * the three arms of the select at the top of Start.  Per the Go
    language specification, when several communications of a select
    can proceed, one is chosen by uniform pseudo-random selection,
    not by case order; the model therefore makes every ready arm a
    possible transition, with no priority among them;
  * the two halves of a successful admission.  Taking the token out
    of sem (the third select arm) happens with no lock held, so it is
    its own step; the rest of Start, which runs mint key / derive
    deadline / register / wg.Add under the worker mutex (the deferred
    unlock fires at return) and launches the job goroutine, is a
    second atomic step.  Between the two, the calling flow holds a
    token but is not yet registered or counted by the WaitGroup, and
    a concurrent Shutdown can run to completion in that window;
  * the job goroutine: fn runs, then its deferred functions run in
    LIFO order, so the inner defer (cancel, removeWork, wg.Done)
    precedes the outer defer (sem release).  Each of those four
    cleanup actions is a separate step, since they take and release
    locks independently;
  * Stop, which under the mutex looks the key up and either calls
    the cancel function or reports the not-found error;
  * Shutdown: close of the latch followed by cancelling every
    registered job under the mutex (one step; closing an already
    closed channel panics in Go, which is its own step); the waiter
    goroutine, whose wg.Wait returns at an instant when the counter
    is zero and which then closes ch — a latch, modelled by the
    drained flag, that stays ready even if a later admission raises
    the counter again; and the final select of Shutdown between the
    latched ch and the caller context.

Caller contexts are environment-controlled, so a caller context
being done is modelled as an always-possible transition.  Wall-clock
time enters only through the deadline arithmetic of Start, which is
kept symbolic (the now argument of the admission event).
-/

namespace GoWorker

/-- Error values surfaced by the Go code, under the names used by the
design document: invalidConfiguration is the construction error of
New (Go text: max running jobs must be greater than 0), shuttingDown
is the admission error of Start after shutdown (Go text: shutting
down), ctxCanceled stands for the error of a done caller context
(ctx.Err()), and notFound is the Stop error for an absent key
(Go text: work[key] is not running). -/
inductive GoError
  | invalidConfiguration
  | shuttingDown
  | ctxCanceled
  | notFound (key : String)
deriving DecidableEq

/-- How the job function fn terminates: a normal return or a
panic-equivalent abrupt termination.  Go runs deferred functions on
both paths, and the cleanup steps of the model are independent of this
tag. -/
inductive ExitKind
  | normal
  | panicEquiv
deriving DecidableEq

/-- The parent from which a job execution context is derived.  The
code builds every job context with
context.WithDeadline(context.Background(), deadline), so the parent
recorded at admission is always backgroundCtx; callerCtx exists so
that detachment from the caller is an actual statement rather than a
vacuous one. -/
inductive CtxParent
  | backgroundCtx
  | callerCtx
deriving DecidableEq

/-- A job execution context: its parent, its absolute deadline in
nanoseconds, and whether its cancel function has been called. -/
structure JobCtx where
  parent : CtxParent
  deadline : Int
  cancelled : Bool
deriving DecidableEq

/-- One second in nanoseconds, the value of time.Second used by the
default-deadline fallback in Start. -/
def timeSecond : Int := 1000000000

/-- The deadline computation of Start: deadline, ok := ctx.Deadline();
if !ok then deadline = time.Now().Add(time.Second).  callerDeadline
is none when the caller context carries no deadline, and now is the
current wall-clock instant. -/
def deriveDeadline (callerDeadline : Option Int) (now : Int) : Int :=
  match callerDeadline with
  | some d => d
  | none => now + timeSecond

/-- context.WithDeadline(context.Background(), d): a fresh context
parented to Background, carrying deadline d, not yet cancelled. -/
def withDeadlineFromBackground (d : Int) : JobCtx :=
  { parent := CtxParent.backgroundCtx, deadline := d, cancelled := false }

/-- Where a launched job goroutine stands.  runningFn: fn is
executing.  exitedFn: fn has terminated, deferred functions not yet
run.  cancelDone: the inner defer has called cancel.  deregDone:
removeWork has deleted the key from the registry.  wgDone: wg.Done
has run.  released: the outer defer has returned the token to sem
and the goroutine is gone. -/
inductive Phase
  | runningFn
  | exitedFn
  | cancelDone
  | deregDone
  | wgDone
  | released
deriving DecidableEq

/-- Linear order of the cleanup pipeline, used to count events. -/
def Phase.rank : Phase → Nat
  | .runningFn => 0
  | .exitedFn => 1
  | .cancelDone => 2
  | .deregDone => 3
  | .wgDone => 4
  | .released => 5

/-- The key is in the registry map from registration in Start until
removeWork, which happens at rank 3. -/
def Phase.registered (p : Phase) : Bool := p.rank < 3

/-- The job is counted by the WaitGroup from wg.Add in Start until
wg.Done, which happens at rank 4. -/
def Phase.wgCounted (p : Phase) : Bool := p.rank < 4

/-- The job holds its capacity token from the sem receive in Start
until the outer defer returns it, at rank 5. -/
def Phase.holdsToken (p : Phase) : Bool := p.rank < 5

/-- One admitted job: its key (the uuid minted by Start), its
execution context, its phase, and how fn exited when it has. -/
structure Job where
  key : String
  ctx : JobCtx
  phase : Phase
  exitKind : Option ExitKind
deriving DecidableEq

/-- The state of one Worker: the fixed capacity, the number of
tokens currently buffered in sem, whether the isShutdown channel has
been closed, the WaitGroup counter, the number of Start flows that
have taken a token out of sem but have not yet registered their job
(the un-mutexed window between the select and the registration),
whether the waiter goroutine of Shutdown has already closed its ch
(wg.Wait returned — a one-way latch), and every job ever admitted
(jobs past their released phase correspond to goroutines that have
finished; the registry and the counters are derived from phases). -/
structure WState where
  capacity : Nat
  semAvail : Nat
  isShutdown : Bool
  wgCount : Nat
  pending : Nat
  drained : Bool
  jobs : List Job
deriving DecidableEq

/-- The Worker built by New for a non-negative capacity: sem is
filled with capacity tokens, the latch is open, nothing runs. -/
def initState (capacity : Nat) : WState :=
  { capacity := capacity, semAvail := capacity, isShutdown := false
    wgCount := 0, pending := 0, drained := false, jobs := [] }

/-- New(capacity): fails on negative capacity, otherwise returns the
fresh Worker.  Go capacity is a signed int. -/
def NewW (capacity : Int) : Except GoError WState :=
  if capacity < 0 then Except.error GoError.invalidConfiguration
  else Except.ok (initState capacity.toNat)

/-- All keys ever minted. -/
def keys (s : WState) : List String := s.jobs.map Job.key

/-- The keys currently in the registry map (field running). -/
def registryKeys (s : WState) : List String :=
  (s.jobs.filter (fun j => j.phase.registered)).map Job.key

/-- Number of job functions currently executing. -/
def numExecuting (s : WState) : Nat :=
  s.jobs.countP (fun j => j.phase == Phase.runningFn)

/-- Number of capacity tokens currently held by jobs. -/
def numHolders (s : WState) : Nat :=
  s.jobs.countP (fun j => j.phase.holdsToken)

/-- Number of jobs currently counted by the WaitGroup. -/
def numWgCounted (s : WState) : Nat :=
  s.jobs.countP (fun j => j.phase.wgCounted)

/-- Number of jobs of key k whose phase has reached rank n; used to
count how often each cleanup action has happened for k. -/
def rankAtLeast (n : Nat) (k : String) (s : WState) : Nat :=
  s.jobs.countP (fun j => j.key == k && decide (n ≤ j.phase.rank))

/-- Calling the cancel function of a context. -/
def setCancelled (j : Job) : Job :=
  { j with ctx := { j.ctx with cancelled := true } }

/-- The cancelAll loop of Shutdown: under the mutex, call the cancel
function of every entry of the registry map. -/
def cancelAllRegistered (jobs : List Job) : List Job :=
  jobs.map (fun j => if j.phase.registered then setCancelled j else j)

/-- The observable actions of the Worker.  Events returning to a
caller carry what that call returns; the cleanup events are internal
steps of the job goroutine. -/
inductive Event
  | startTok
  | startReg (key : String) (callerDeadline : Option Int) (now : Int)
  | startShutdownErr
  | startCtxErr
  | fnExit (key : String) (ek : ExitKind)
  | cleanupCancel (key : String)
  | cleanupDereg (key : String)
  | cleanupWgDone (key : String)
  | cleanupRelease (key : String)
  | stopOk (key : String)
  | stopNotFound (key : String)
  | shutdownBegin
  | shutdownAgain
  | drainObserved
  | shutdownNil
  | shutdownCtxErr
deriving DecidableEq

/-- What each event returns to its caller: Start returns a key and
an error, Stop and Shutdown return an error, internal steps return
nothing, and shutdownAgain is the runtime panic of closing a closed
channel. -/
inductive Obs
  | startRet (id : String) (err : Option GoError)
  | stopRet (err : Option GoError)
  | shutdownRet (err : Option GoError)
  | internal
  | panicked
deriving DecidableEq

/-- The return value of each event, read off the return statements
of the Go code. -/
def eventObs : Event → Obs
  | .startReg k _ _ => Obs.startRet k none
  | .startShutdownErr => Obs.startRet "" (some GoError.shuttingDown)
  | .startCtxErr => Obs.startRet "" (some GoError.ctxCanceled)
  | .stopOk _ => Obs.stopRet none
  | .stopNotFound k => Obs.stopRet (some (GoError.notFound k))
  | .shutdownBegin => Obs.internal
  | .shutdownAgain => Obs.panicked
  | .shutdownNil => Obs.shutdownRet none
  | .shutdownCtxErr => Obs.shutdownRet (some GoError.ctxCanceled)
  | _ => Obs.internal

/-- One atomic step of the Go program.  See the module comment for
the correspondence with the source; in particular the three start
arms model the select of Start under Go select semantics (uniform
choice among ready arms, no priority), so startTok requires only
that sem is non-empty, whether or not the latch is closed; and the
registration half of Start is a separate step, since the token is
taken with no lock held and the registration happens later under
the mutex. -/
inductive Step : WState → Event → WState → Prop
  | startTok {s : WState} (hsem : 0 < s.semAvail) :
      Step s Event.startTok
        { s with semAvail := s.semAvail - 1, pending := s.pending + 1 }
  | startReg {s : WState} {k : String} {cd : Option Int} {now : Int}
      (hpend : 0 < s.pending) (hfresh : k ∉ keys s) :
      Step s (Event.startReg k cd now)
        { s with pending := s.pending - 1
                 wgCount := s.wgCount + 1
                 jobs := s.jobs ++
                   [{ key := k
                      ctx := withDeadlineFromBackground (deriveDeadline cd now)
                      phase := Phase.runningFn, exitKind := none }] }
  | startShutdownErr {s : WState} (h : s.isShutdown = true) :
      Step s Event.startShutdownErr s
  | startCtxErr {s : WState} :
      Step s Event.startCtxErr s
  | fnExit {s : WState} {pre post : List Job} {j : Job} {ek : ExitKind}
      (hs : s.jobs = pre ++ j :: post) (hp : j.phase = Phase.runningFn) :
      Step s (Event.fnExit j.key ek)
        { s with jobs := pre ++
            { j with phase := Phase.exitedFn, exitKind := some ek } :: post }
  | cleanupCancel {s : WState} {pre post : List Job} {j : Job}
      (hs : s.jobs = pre ++ j :: post) (hp : j.phase = Phase.exitedFn) :
      Step s (Event.cleanupCancel j.key)
        { s with jobs := pre ++
            (setCancelled { j with phase := Phase.cancelDone }) :: post }
  | cleanupDereg {s : WState} {pre post : List Job} {j : Job}
      (hs : s.jobs = pre ++ j :: post) (hp : j.phase = Phase.cancelDone) :
      Step s (Event.cleanupDereg j.key)
        { s with jobs := pre ++ { j with phase := Phase.deregDone } :: post }
  | cleanupWgDone {s : WState} {pre post : List Job} {j : Job}
      (hs : s.jobs = pre ++ j :: post) (hp : j.phase = Phase.deregDone) :
      Step s (Event.cleanupWgDone j.key)
        { s with wgCount := s.wgCount - 1
                 jobs := pre ++ { j with phase := Phase.wgDone } :: post }
  | cleanupRelease {s : WState} {pre post : List Job} {j : Job}
      (hs : s.jobs = pre ++ j :: post) (hp : j.phase = Phase.wgDone) :
      Step s (Event.cleanupRelease j.key)
        { s with semAvail := s.semAvail + 1
                 jobs := pre ++ { j with phase := Phase.released } :: post }
  | stopOk {s : WState} {pre post : List Job} {j : Job}
      (hs : s.jobs = pre ++ j :: post) (hp : j.phase.registered = true) :
      Step s (Event.stopOk j.key)
        { s with jobs := pre ++ setCancelled j :: post }
  | stopNotFound {s : WState} {k : String} (h : k ∉ registryKeys s) :
      Step s (Event.stopNotFound k) s
  | shutdownBegin {s : WState} (h : s.isShutdown = false) :
      Step s Event.shutdownBegin
        { s with isShutdown := true, jobs := cancelAllRegistered s.jobs }
  | shutdownAgain {s : WState} (h : s.isShutdown = true) :
      Step s Event.shutdownAgain s
  | drainObserved {s : WState} (h : s.isShutdown = true) (hwg : s.wgCount = 0) :
      Step s Event.drainObserved { s with drained := true }
  | shutdownNil {s : WState} (h : s.drained = true) :
      Step s Event.shutdownNil s
  | shutdownCtxErr {s : WState} (h : s.isShutdown = true) :
      Step s Event.shutdownCtxErr s

/-- A finite execution: Trace s tr s' means the events of tr take
the Worker from s to s', one Step at a time. -/
inductive Trace : WState → List Event → WState → Prop
  | nil {s : WState} : Trace s [] s
  | cons {s s' s'' : WState} {e : Event} {tr : List Event}
      (hstep : Step s e s') (htr : Trace s' tr s'') : Trace s (e :: tr) s''

/-- The states a Worker of capacity c can reach from construction. -/
def Reachable (c : Nat) (s : WState) : Prop :=
  ∃ tr, Trace (initState c) tr s

/-- Number of jobs ever admitted under key k (at most one, since the
keys are unique). -/
def keyCount (k : String) (s : WState) : Nat :=
  s.jobs.countP (fun j => j.key == k)

/-- The state of a capacity-1 Worker right after Shutdown was called
before any job was started: the latch is closed, the single token is
still in sem, nothing is registered. -/
def sShut : WState :=
  { capacity := 1, semAvail := 1, isShutdown := true, wgCount := 0,
    pending := 0, drained := false, jobs := [] }

/-- The inductive invariant of the model: the capacity field is the
construction capacity, minted keys are pairwise distinct, tokens in
sem plus tokens held by in-flight Start flows plus tokens held by
jobs account for the whole pool, and the WaitGroup counter counts
exactly the jobs between wg.Add and wg.Done. -/
structure Inv (c : Nat) (s : WState) : Prop where
  cap : s.capacity = c
  nodupKeys : (keys s).Nodup
  tok : s.semAvail + s.pending + numHolders s = c
  wg : s.wgCount = numWgCounted s

theorem setCancelled_key (j : Job) : (setCancelled j).key = j.key := rfl

theorem setCancelled_phase (j : Job) : (setCancelled j).phase = j.phase := rfl

theorem cancelAll_entry_key (j : Job) :
    (if j.phase.registered then setCancelled j else j).key = j.key := by
  by_cases h : j.phase.registered <;> simp [h, setCancelled]

theorem cancelAll_entry_phase (j : Job) :
    (if j.phase.registered then setCancelled j else j).phase = j.phase := by
  by_cases h : j.phase.registered <;> simp [h, setCancelled]

theorem keys_cancelAll (jobs : List Job) :
    (cancelAllRegistered jobs).map Job.key = jobs.map Job.key := by
  unfold cancelAllRegistered
  rw [List.map_map]
  exact List.map_congr_left (fun j _ => cancelAll_entry_key j)

theorem countP_cancelAll (p : Job → Bool)
    (hp : ∀ j, p (setCancelled j) = p j) (jobs : List Job) :
    (cancelAllRegistered jobs).countP p = jobs.countP p := by
  unfold cancelAllRegistered
  rw [List.countP_map]
  refine List.countP_congr (fun j _ => ?_)
  by_cases h : j.phase.registered <;> simp [Function.comp, h, hp]

theorem inv_init (c : Nat) : Inv c (initState c) := by
  refine ⟨rfl, ?_, ?_, ?_⟩ <;> simp [initState, keys, numHolders, numWgCounted]

theorem inv_step {c : Nat} {s s' : WState} {e : Event}
    (hinv : Inv c s) (hstep : Step s e s') : Inv c s' := by
  obtain ⟨hcap, hnd, htok, hwg⟩ := hinv
  cases hstep with
  | startTok hsem =>
      refine ⟨hcap, hnd, ?_, hwg⟩
      simp only [numHolders] at htok ⊢
      omega
  | startReg hpend hfresh =>
      refine ⟨hcap, ?_, ?_, ?_⟩
      · simp only [keys, List.map_append, List.map_cons, List.map_nil]
        rw [List.nodup_append_comm]
        simp only [List.singleton_append, List.nodup_cons]
        exact ⟨hfresh, hnd⟩
      · simp only [numHolders] at htok ⊢
        simp only [List.countP_append, List.countP_cons, List.countP_nil,
          Phase.holdsToken, Phase.rank] at htok ⊢
        simp at htok ⊢ <;> omega
      · simp only [numWgCounted] at hwg ⊢
        simp only [List.countP_append, List.countP_cons, List.countP_nil,
          Phase.wgCounted, Phase.rank] at hwg ⊢
        simp at hwg ⊢ <;> omega
  | startShutdownErr h => exact ⟨hcap, hnd, htok, hwg⟩
  | startCtxErr => exact ⟨hcap, hnd, htok, hwg⟩
  | fnExit hs hp =>
      refine ⟨hcap, ?_, ?_, ?_⟩
      · simp only [keys] at hnd ⊢
        rw [hs] at hnd
        simpa using hnd
      · simp only [numHolders] at htok ⊢
        rw [hs] at htok
        simp only [List.countP_append, List.countP_cons,
          Phase.holdsToken, Phase.rank, hp] at htok ⊢
        simp at htok ⊢ <;> omega
      · simp only [numWgCounted] at hwg ⊢
        rw [hs] at hwg
        simp only [List.countP_append, List.countP_cons,
          Phase.wgCounted, Phase.rank, hp] at hwg ⊢
        simp at hwg ⊢ <;> omega
  | cleanupCancel hs hp =>
      refine ⟨hcap, ?_, ?_, ?_⟩
      · simp only [keys] at hnd ⊢
        rw [hs] at hnd
        simpa [setCancelled] using hnd
      · simp only [numHolders] at htok ⊢
        rw [hs] at htok
        simp only [List.countP_append, List.countP_cons, setCancelled,
          Phase.holdsToken, Phase.rank, hp] at htok ⊢
        simp at htok ⊢ <;> omega
      · simp only [numWgCounted] at hwg ⊢
        rw [hs] at hwg
        simp only [List.countP_append, List.countP_cons, setCancelled,
          Phase.wgCounted, Phase.rank, hp] at hwg ⊢
        simp at hwg ⊢ <;> omega
  | cleanupDereg hs hp =>
      refine ⟨hcap, ?_, ?_, ?_⟩
      · simp only [keys] at hnd ⊢
        rw [hs] at hnd
        simpa using hnd
      · simp only [numHolders] at htok ⊢
        rw [hs] at htok
        simp only [List.countP_append, List.countP_cons,
          Phase.holdsToken, Phase.rank, hp] at htok ⊢
        simp at htok ⊢ <;> omega
      · simp only [numWgCounted] at hwg ⊢
        rw [hs] at hwg
        simp only [List.countP_append, List.countP_cons,
          Phase.wgCounted, Phase.rank, hp] at hwg ⊢
        simp at hwg ⊢ <;> omega
  | cleanupWgDone hs hp =>
      refine ⟨hcap, ?_, ?_, ?_⟩
      · simp only [keys] at hnd ⊢
        rw [hs] at hnd
        simpa using hnd
      · simp only [numHolders] at htok ⊢
        rw [hs] at htok
        simp only [List.countP_append, List.countP_cons,
          Phase.holdsToken, Phase.rank, hp] at htok ⊢
        simp at htok ⊢ <;> omega
      · simp only [numWgCounted] at hwg ⊢
        rw [hs] at hwg
        simp only [List.countP_append, List.countP_cons,
          Phase.wgCounted, Phase.rank, hp] at hwg ⊢
        simp at hwg ⊢ <;> omega
  | cleanupRelease hs hp =>
      refine ⟨hcap, ?_, ?_, ?_⟩
      · simp only [keys] at hnd ⊢
        rw [hs] at hnd
        simpa using hnd
      · simp only [numHolders] at htok ⊢
        rw [hs] at htok
        simp only [List.countP_append, List.countP_cons,
          Phase.holdsToken, Phase.rank, hp] at htok ⊢
        simp at htok ⊢ <;> omega
      · simp only [numWgCounted] at hwg ⊢
        rw [hs] at hwg
        simp only [List.countP_append, List.countP_cons,
          Phase.wgCounted, Phase.rank, hp] at hwg ⊢
        simp at hwg ⊢ <;> omega
  | stopOk hs hp =>
      refine ⟨hcap, ?_, ?_, ?_⟩
      · simp only [keys] at hnd ⊢
        rw [hs] at hnd
        simpa [setCancelled] using hnd
      · simp only [numHolders] at htok ⊢
        rw [hs] at htok
        simp only [List.countP_append, List.countP_cons,
          setCancelled] at htok ⊢
        exact htok
      · simp only [numWgCounted] at hwg ⊢
        rw [hs] at hwg
        simp only [List.countP_append, List.countP_cons,
          setCancelled] at hwg ⊢
        exact hwg
  | stopNotFound h => exact ⟨hcap, hnd, htok, hwg⟩
  | shutdownBegin h =>
      refine ⟨hcap, ?_, ?_, ?_⟩
      · simp only [keys] at hnd ⊢
        simpa [keys_cancelAll] using hnd
      · simp only [numHolders] at htok ⊢
        rw [countP_cancelAll (fun j => j.phase.holdsToken) (fun j => rfl)]
        exact htok
      · simp only [numWgCounted] at hwg ⊢
        rw [countP_cancelAll (fun j => j.phase.wgCounted) (fun j => rfl)]
        exact hwg
  | shutdownAgain h => exact ⟨hcap, hnd, htok, hwg⟩
  | drainObserved h hwg2 => exact ⟨hcap, hnd, htok, hwg⟩
  | shutdownNil h => exact ⟨hcap, hnd, htok, hwg⟩
  | shutdownCtxErr h => exact ⟨hcap, hnd, htok, hwg⟩


theorem inv_trace {c : Nat} {s s2 : WState} {tr : List Event}
    (h : Trace s tr s2) (hi : Inv c s) : Inv c s2 := by
  induction h with
  | nil => exact hi
  | cons hstep htr ih => exact ih (inv_step hi hstep)

theorem inv_reachable {c : Nat} {s : WState} (h : Reachable c s) : Inv c s := by
  obtain ⟨tr, htr⟩ := h
  exact inv_trace htr (inv_init c)

theorem trace_append_split {s s2 : WState} {p q : List Event}
    (h : Trace s (p ++ q) s2) : ∃ m, Trace s p m ∧ Trace m q s2 := by
  induction p generalizing s with
  | nil => exact ⟨s, Trace.nil, h⟩
  | cons e p2 ih =>
      cases h with
      | cons hstep htr =>
          obtain ⟨m, h1, h2⟩ := ih htr
          exact ⟨m, Trace.cons hstep h1, h2⟩

theorem count_step_cancel {s s' : WState} {e : Event}
    (hstep : Step s e s') (k : String) :
    rankAtLeast 2 k s' = rankAtLeast 2 k s
      + (if e = Event.cleanupCancel k then 1 else 0) := by
  cases hstep with
  | startTok hsem => simp [rankAtLeast]
  | startReg hpend hfresh =>
      simp [rankAtLeast, List.countP_append, List.countP_cons, Phase.rank]
  | startShutdownErr h => simp
  | startCtxErr => simp
  | fnExit hs hp =>
      rename_i pre post j ek
      simp [rankAtLeast, hs, List.countP_append, List.countP_cons, hp, Phase.rank]
  | cleanupCancel hs hp =>
      rename_i pre post j
      by_cases hk : j.key = k
      · subst hk
        simp [rankAtLeast, hs, List.countP_append, List.countP_cons, hp,
          Phase.rank, setCancelled] <;> omega
      · have h2 : (j.key == k) = false := beq_eq_false_iff_ne.mpr hk
        simp [rankAtLeast, hs, List.countP_append, List.countP_cons, hp,
          Phase.rank, setCancelled, h2, hk]
  | cleanupDereg hs hp =>
      rename_i pre post j
      simp [rankAtLeast, hs, List.countP_append, List.countP_cons, hp, Phase.rank]
  | cleanupWgDone hs hp =>
      rename_i pre post j
      simp [rankAtLeast, hs, List.countP_append, List.countP_cons, hp, Phase.rank]
  | cleanupRelease hs hp =>
      rename_i pre post j
      simp [rankAtLeast, hs, List.countP_append, List.countP_cons, hp, Phase.rank]
  | stopOk hs hp =>
      rename_i pre post j
      simp [rankAtLeast, hs, List.countP_append, List.countP_cons, setCancelled]
  | stopNotFound h => simp
  | shutdownBegin h =>
      show List.countP _ (cancelAllRegistered _) = _
      rw [countP_cancelAll (fun j => j.key == k && decide (2 ≤ j.phase.rank))
        (fun j => rfl)]
      simp [rankAtLeast]
  | shutdownAgain h => simp
  | drainObserved h hwg2 => simp [rankAtLeast]
  | shutdownNil h => simp
  | shutdownCtxErr h => simp

theorem count_step_dereg {s s' : WState} {e : Event}
    (hstep : Step s e s') (k : String) :
    rankAtLeast 3 k s' = rankAtLeast 3 k s
      + (if e = Event.cleanupDereg k then 1 else 0) := by
  cases hstep with
  | startTok hsem => simp [rankAtLeast]
  | startReg hpend hfresh =>
      simp [rankAtLeast, List.countP_append, List.countP_cons, Phase.rank]
  | startShutdownErr h => simp
  | startCtxErr => simp
  | fnExit hs hp =>
      rename_i pre post j ek
      simp [rankAtLeast, hs, List.countP_append, List.countP_cons, hp, Phase.rank]
  | cleanupCancel hs hp =>
      rename_i pre post j
      simp [rankAtLeast, hs, List.countP_append, List.countP_cons, hp,
        Phase.rank, setCancelled]
  | cleanupDereg hs hp =>
      rename_i pre post j
      by_cases hk : j.key = k
      · subst hk
        simp [rankAtLeast, hs, List.countP_append, List.countP_cons, hp,
          Phase.rank] <;> omega
      · have h2 : (j.key == k) = false := beq_eq_false_iff_ne.mpr hk
        simp [rankAtLeast, hs, List.countP_append, List.countP_cons, hp,
          Phase.rank, h2, hk]
  | cleanupWgDone hs hp =>
      rename_i pre post j
      simp [rankAtLeast, hs, List.countP_append, List.countP_cons, hp, Phase.rank]
  | cleanupRelease hs hp =>
      rename_i pre post j
      simp [rankAtLeast, hs, List.countP_append, List.countP_cons, hp, Phase.rank]
  | stopOk hs hp =>
      rename_i pre post j
      simp [rankAtLeast, hs, List.countP_append, List.countP_cons, setCancelled]
  | stopNotFound h => simp
  | shutdownBegin h =>
      show List.countP _ (cancelAllRegistered _) = _
      rw [countP_cancelAll (fun j => j.key == k && decide (3 ≤ j.phase.rank))
        (fun j => rfl)]
      simp [rankAtLeast]
  | shutdownAgain h => simp
  | drainObserved h hwg2 => simp [rankAtLeast]
  | shutdownNil h => simp
  | shutdownCtxErr h => simp

theorem count_step_release {s s' : WState} {e : Event}
    (hstep : Step s e s') (k : String) :
    rankAtLeast 5 k s' = rankAtLeast 5 k s
      + (if e = Event.cleanupRelease k then 1 else 0) := by
  cases hstep with
  | startTok hsem => simp [rankAtLeast]
  | startReg hpend hfresh =>
      simp [rankAtLeast, List.countP_append, List.countP_cons, Phase.rank]
  | startShutdownErr h => simp
  | startCtxErr => simp
  | fnExit hs hp =>
      rename_i pre post j ek
      simp [rankAtLeast, hs, List.countP_append, List.countP_cons, hp, Phase.rank]
  | cleanupCancel hs hp =>
      rename_i pre post j
      simp [rankAtLeast, hs, List.countP_append, List.countP_cons, hp,
        Phase.rank, setCancelled]
  | cleanupDereg hs hp =>
      rename_i pre post j
      simp [rankAtLeast, hs, List.countP_append, List.countP_cons, hp, Phase.rank]
  | cleanupWgDone hs hp =>
      rename_i pre post j
      simp [rankAtLeast, hs, List.countP_append, List.countP_cons, hp, Phase.rank]
  | cleanupRelease hs hp =>
      rename_i pre post j
      by_cases hk : j.key = k
      · subst hk
        simp [rankAtLeast, hs, List.countP_append, List.countP_cons, hp,
          Phase.rank] <;> omega
      · have h2 : (j.key == k) = false := beq_eq_false_iff_ne.mpr hk
        simp [rankAtLeast, hs, List.countP_append, List.countP_cons, hp,
          Phase.rank, h2, hk]
  | stopOk hs hp =>
      rename_i pre post j
      simp [rankAtLeast, hs, List.countP_append, List.countP_cons, setCancelled]
  | stopNotFound h => simp
  | shutdownBegin h =>
      show List.countP _ (cancelAllRegistered _) = _
      rw [countP_cancelAll (fun j => j.key == k && decide (5 ≤ j.phase.rank))
        (fun j => rfl)]
      simp [rankAtLeast]
  | shutdownAgain h => simp
  | drainObserved h hwg2 => simp [rankAtLeast]
  | shutdownNil h => simp
  | shutdownCtxErr h => simp

theorem count_trace_cancel {s s2 : WState} {tr : List Event}
    (h : Trace s tr s2) (k : String) :
    rankAtLeast 2 k s2 = rankAtLeast 2 k s + tr.count (Event.cleanupCancel k) := by
  induction h with
  | nil => simp
  | cons hstep htr ih =>
      rename_i sa sb sc e tr2
      have hst := count_step_cancel hstep k
      rw [List.count_cons]
      by_cases he : e = Event.cleanupCancel k
      · simp only [he, if_pos rfl, beq_self_eq_true, if_true] at hst ⊢
        omega
      · have h2 : (e == Event.cleanupCancel k) = false := beq_eq_false_iff_ne.mpr he
        simp only [he, if_false, h2, if_neg] at hst ⊢
        simp at hst ⊢
        omega

theorem count_trace_dereg {s s2 : WState} {tr : List Event}
    (h : Trace s tr s2) (k : String) :
    rankAtLeast 3 k s2 = rankAtLeast 3 k s + tr.count (Event.cleanupDereg k) := by
  induction h with
  | nil => simp
  | cons hstep htr ih =>
      rename_i sa sb sc e tr2
      have hst := count_step_dereg hstep k
      rw [List.count_cons]
      by_cases he : e = Event.cleanupDereg k
      · simp only [he, if_pos rfl, beq_self_eq_true, if_true] at hst ⊢
        omega
      · have h2 : (e == Event.cleanupDereg k) = false := beq_eq_false_iff_ne.mpr he
        simp only [he, if_false, h2, if_neg] at hst ⊢
        simp at hst ⊢
        omega

theorem count_trace_release {s s2 : WState} {tr : List Event}
    (h : Trace s tr s2) (k : String) :
    rankAtLeast 5 k s2 = rankAtLeast 5 k s + tr.count (Event.cleanupRelease k) := by
  induction h with
  | nil => simp
  | cons hstep htr ih =>
      rename_i sa sb sc e tr2
      have hst := count_step_release hstep k
      rw [List.count_cons]
      by_cases he : e = Event.cleanupRelease k
      · simp only [he, if_pos rfl, beq_self_eq_true, if_true] at hst ⊢
        omega
      · have h2 : (e == Event.cleanupRelease k) = false := beq_eq_false_iff_ne.mpr he
        simp only [he, if_false, h2, if_neg] at hst ⊢
        simp at hst ⊢
        omega

theorem rankAtLeast_init (n : Nat) (k : String) (c : Nat) :
    rankAtLeast n k (initState c) = 0 := rfl

theorem rankAtLeast_le_keyCount (n : Nat) (k : String) (s : WState) :
    rankAtLeast n k s ≤ keyCount k s :=
  List.countP_mono_left (fun j _ h => by
    simp only [Bool.and_eq_true] at h
    exact h.1)

theorem rankAtLeast_mono {n m : Nat} (hnm : n ≤ m) (k : String) (s : WState) :
    rankAtLeast m k s ≤ rankAtLeast n k s :=
  List.countP_mono_left (fun j _ h => by
    simp only [Bool.and_eq_true, decide_eq_true_eq] at h ⊢
    exact ⟨h.1, le_trans hnm h.2⟩)

theorem keyCount_le_one {c : Nat} {s : WState} (hinv : Inv c s) (k : String) :
    keyCount k s ≤ 1 := by
  have h := List.nodup_iff_count_le_one.mp hinv.nodupKeys k
  have h2 : (keys s).count k = keyCount k s := by
    simp only [keys, List.count_eq_countP, List.countP_map, keyCount]
    rfl
  omega

theorem rankAtLeast_eq_zero_of_low {s : WState} {pre post : List Job} {j : Job}
    {n : Nat} (hs : s.jobs = pre ++ j :: post) (hrank : j.phase.rank < n)
    (hkc : keyCount j.key s ≤ 1) : rankAtLeast n j.key s = 0 := by
  have hmono_pre : pre.countP (fun x => x.key == j.key && decide (n ≤ x.phase.rank))
      ≤ pre.countP (fun x => x.key == j.key) :=
    List.countP_mono_left (fun x _ h => by
      simp only [Bool.and_eq_true] at h
      exact h.1)
  have hmono_post : post.countP (fun x => x.key == j.key && decide (n ≤ x.phase.rank))
      ≤ post.countP (fun x => x.key == j.key) :=
    List.countP_mono_left (fun x _ h => by
      simp only [Bool.and_eq_true] at h
      exact h.1)
  have hj2 : decide (n ≤ j.phase.rank) = false := by
    simp only [decide_eq_false_iff_not]
    omega
  simp only [keyCount, rankAtLeast, hs, List.countP_append, List.countP_cons] at hkc ⊢
  simp [hj2] at hkc ⊢
  have hpre0 : List.countP (fun x => x.key == j.key) pre = 0 := by omega
  have hpost0 : List.countP (fun x => x.key == j.key) post = 0 := by omega
  rw [List.countP_eq_zero] at hpre0 hpost0
  constructor
  · intro a ha hak
    exact absurd (by simp [hak]) (hpre0 a ha)
  · intro a ha hak
    exact absurd (by simp [hak]) (hpost0 a ha)

theorem cleanup_from_exited {s : WState} {pre post : List Job} {j : Job}
    (hs : s.jobs = pre ++ j :: post) (hp : j.phase = Phase.exitedFn) :
    ∃ s2, Trace s [Event.cleanupCancel j.key, Event.cleanupDereg j.key,
        Event.cleanupWgDone j.key, Event.cleanupRelease j.key] s2 ∧
      s2.jobs = pre ++ { j with phase := Phase.released, ctx := { j.ctx with cancelled := true } } :: post := by
  have h1 : Step s (Event.cleanupCancel j.key)
      { s with jobs := pre ++ setCancelled { j with phase := Phase.cancelDone } :: post } :=
    Step.cleanupCancel hs hp
  have h2 : Step { s with jobs := pre ++ setCancelled { j with phase := Phase.cancelDone } :: post }
      (Event.cleanupDereg j.key)
      { s with jobs := pre ++ { j with phase := Phase.deregDone, ctx := { j.ctx with cancelled := true } } :: post } :=
    @Step.cleanupDereg _ pre post (setCancelled { j with phase := Phase.cancelDone }) rfl rfl
  have h3 : Step { s with jobs := pre ++ { j with phase := Phase.deregDone, ctx := { j.ctx with cancelled := true } } :: post }
      (Event.cleanupWgDone j.key)
      { s with wgCount := s.wgCount - 1, jobs := pre ++ { j with phase := Phase.wgDone, ctx := { j.ctx with cancelled := true } } :: post } :=
    @Step.cleanupWgDone _ pre post { j with phase := Phase.deregDone, ctx := { j.ctx with cancelled := true } } rfl rfl
  have h4 : Step { s with wgCount := s.wgCount - 1, jobs := pre ++ { j with phase := Phase.wgDone, ctx := { j.ctx with cancelled := true } } :: post }
      (Event.cleanupRelease j.key)
      { s with wgCount := s.wgCount - 1, semAvail := s.semAvail + 1, jobs := pre ++ { j with phase := Phase.released, ctx := { j.ctx with cancelled := true } } :: post } :=
    @Step.cleanupRelease _ pre post { j with phase := Phase.wgDone, ctx := { j.ctx with cancelled := true } } rfl rfl
  exact ⟨_, Trace.cons h1 (Trace.cons h2 (Trace.cons h3 (Trace.cons h4 Trace.nil))), rfl⟩


theorem no_start_when_zero {s s2 : WState} {tr : List Event}
    (h : Trace s tr s2) :
    s.semAvail = 0 → s.pending = 0 → s.jobs = [] →
    Event.startTok ∉ tr ∧ ∀ k cd now, Event.startReg k cd now ∉ tr := by
  induction h with
  | nil =>
      intro _ _ _
      simp
  | cons hstep htr ih =>
      intro h0 hp hj
      cases hstep with
      | startTok hsem => omega
      | startReg hpend hfresh => omega
      | startShutdownErr hsd =>
          obtain ⟨ih1, ih2⟩ := ih h0 hp hj
          refine ⟨?_, fun k cd now => ?_⟩ <;>
            simp only [List.mem_cons, not_or] <;>
            exact ⟨by simp, by first | exact ih1 | exact ih2 k cd now⟩
      | startCtxErr =>
          obtain ⟨ih1, ih2⟩ := ih h0 hp hj
          refine ⟨?_, fun k cd now => ?_⟩ <;>
            simp only [List.mem_cons, not_or] <;>
            exact ⟨by simp, by first | exact ih1 | exact ih2 k cd now⟩
      | fnExit hs hpj =>
          rw [hj] at hs
          simp at hs
      | cleanupCancel hs hpj =>
          rw [hj] at hs
          simp at hs
      | cleanupDereg hs hpj =>
          rw [hj] at hs
          simp at hs
      | cleanupWgDone hs hpj =>
          rw [hj] at hs
          simp at hs
      | cleanupRelease hs hpj =>
          rw [hj] at hs
          simp at hs
      | stopOk hs hpj =>
          rw [hj] at hs
          simp at hs
      | stopNotFound hnot =>
          obtain ⟨ih1, ih2⟩ := ih h0 hp hj
          refine ⟨?_, fun k cd now => ?_⟩ <;>
            simp only [List.mem_cons, not_or] <;>
            exact ⟨by simp, by first | exact ih1 | exact ih2 k cd now⟩
      | shutdownBegin hsd =>
          obtain ⟨ih1, ih2⟩ := ih h0 hp (by simp [cancelAllRegistered, hj])
          refine ⟨?_, fun k cd now => ?_⟩ <;>
            simp only [List.mem_cons, not_or] <;>
            exact ⟨by simp, by first | exact ih1 | exact ih2 k cd now⟩
      | shutdownAgain hsd =>
          obtain ⟨ih1, ih2⟩ := ih h0 hp hj
          refine ⟨?_, fun k cd now => ?_⟩ <;>
            simp only [List.mem_cons, not_or] <;>
            exact ⟨by simp, by first | exact ih1 | exact ih2 k cd now⟩
      | drainObserved hsd hwg =>
          obtain ⟨ih1, ih2⟩ := ih h0 hp hj
          refine ⟨?_, fun k cd now => ?_⟩ <;>
            simp only [List.mem_cons, not_or] <;>
            exact ⟨by simp, by first | exact ih1 | exact ih2 k cd now⟩
      | shutdownNil hsd =>
          obtain ⟨ih1, ih2⟩ := ih h0 hp hj
          refine ⟨?_, fun k cd now => ?_⟩ <;>
            simp only [List.mem_cons, not_or] <;>
            exact ⟨by simp, by first | exact ih1 | exact ih2 k cd now⟩
      | shutdownCtxErr hsd =>
          obtain ⟨ih1, ih2⟩ := ih h0 hp hj
          refine ⟨?_, fun k cd now => ?_⟩ <;>
            simp only [List.mem_cons, not_or] <;>
            exact ⟨by simp, by first | exact ih1 | exact ih2 k cd now⟩

/-- Claim C1: for every capacity c and every reachable state, the
number of concurrently executing job functions never exceeds c, a
job function only runs while holding one of the c tokens
(numExecuting is bounded by numHolders), and the tokens in sem plus
the tokens held by in-flight Start flows plus the tokens held by
jobs always account for exactly the c tokens created by New. -/
theorem capacity_never_exceeded (c : Nat) (s : WState) (h : Reachable c s) :
    numExecuting s ≤ c ∧ s.semAvail + s.pending + numHolders s = c ∧
      numExecuting s ≤ numHolders s := by
  have hinv := inv_reachable h
  have htok := hinv.tok
  have hmono : numExecuting s ≤ numHolders s :=
    List.countP_mono_left (fun j _ hj => by
      have hj2 : j.phase = Phase.runningFn := by simpa using hj
      simp [hj2, Phase.holdsToken, Phase.rank])
  exact ⟨by omega, htok, hmono⟩

/-- Witness for capacity_never_exceeded: the freshly constructed
Worker of capacity 2. -/
theorem capacity_never_exceeded_witness :
    numExecuting (initState 2) ≤ 2 ∧
      (initState 2).semAvail + (initState 2).pending + numHolders (initState 2) = 2 ∧
      numExecuting (initState 2) ≤ numHolders (initState 2) :=
  capacity_never_exceeded 2 (initState 2) ⟨[], Trace.nil⟩

/-- Claim C5: every successful Start hands the job a context built
with WithDeadline on a fresh Background parent, not yet cancelled,
whose deadline is the caller deadline when one was supplied and
otherwise the admission instant plus one second. -/
theorem start_derived_context (s s' : WState) (k : String)
    (cd : Option Int) (now : Int)
    (h : Step s (Event.startReg k cd now) s') :
    ∃ j : Job, s'.jobs = s.jobs ++ [j] ∧ j.key = k ∧
      j.ctx.parent = CtxParent.backgroundCtx ∧ j.ctx.cancelled = false ∧
      j.phase = Phase.runningFn ∧
      (∀ d, cd = some d → j.ctx.deadline = d) ∧
      (cd = none → j.ctx.deadline = now + timeSecond) := by
  cases h with
  | startReg hpend hfresh =>
      refine ⟨_, rfl, rfl, rfl, rfl, rfl, fun d hd => ?_, fun hn => ?_⟩
      · subst hd
        rfl
      · subst hn
        rfl

/-- Witness for start_derived_context: registration of job "a" with
no caller deadline at instant 3 by a Start flow that holds the
token of a capacity-1 Worker. -/
theorem start_derived_context_witness :
    ∃ j : Job,
      ({ capacity := 1, semAvail := 0, isShutdown := false, wgCount := 1,
         pending := 0, drained := false,
         jobs := [{ key := "a",
                    ctx := withDeadlineFromBackground (deriveDeadline none 3),
                    phase := Phase.runningFn, exitKind := none }] } : WState).jobs
        = ({ capacity := 1, semAvail := 0, isShutdown := false, wgCount := 0,
             pending := 1, drained := false, jobs := [] } : WState).jobs ++ [j] ∧
      j.key = "a" ∧
      j.ctx.parent = CtxParent.backgroundCtx ∧ j.ctx.cancelled = false ∧
      j.phase = Phase.runningFn ∧
      (∀ d, (none : Option Int) = some d → j.ctx.deadline = d) ∧
      ((none : Option Int) = none → j.ctx.deadline = 3 + timeSecond) :=
  start_derived_context
    { capacity := 1, semAvail := 0, isShutdown := false, wgCount := 0,
      pending := 1, drained := false, jobs := [] } _ "a" none 3
    (Step.startReg (by decide) (by decide))

/-- Claim C6: Stop with an id that is not in the registry returns
the NotFound error and changes nothing; Stop with a registered id
calls exactly the cancel function of that job, keeps the registry keys
and the rest of the state intact, and returns nil. -/
theorem stop_found_and_not_found (s s' : WState) (k : String) :
    (Step s (Event.stopNotFound k) s' →
      k ∉ registryKeys s ∧ s' = s ∧
      eventObs (Event.stopNotFound k) = Obs.stopRet (some (GoError.notFound k))) ∧
    (Step s (Event.stopOk k) s' →
      k ∈ registryKeys s ∧
      eventObs (Event.stopOk k) = Obs.stopRet none ∧
      registryKeys s' = registryKeys s ∧
      s'.semAvail = s.semAvail ∧ s'.isShutdown = s.isShutdown ∧
      s'.wgCount = s.wgCount ∧
      ∃ pre j post, s.jobs = pre ++ j :: post ∧ j.key = k ∧
        j.phase.registered = true ∧
        s'.jobs = pre ++ setCancelled j :: post) := by
  constructor
  · intro h
    cases h with
    | stopNotFound hnot => exact ⟨hnot, rfl, rfl⟩
  · intro h
    cases h with
    | stopOk hs hp =>
        rename_i pre post j
        refine ⟨?_, rfl, ?_, rfl, rfl, rfl, pre, j, post, hs, rfl, hp, rfl⟩
        · simp [registryKeys, hs, List.filter_append, hp]
        · simp [registryKeys, hs, List.filter_append, setCancelled, hp]

/-- Witness for stop_found_and_not_found: Stop of the never-issued
id "x" on a fresh capacity-1 Worker. -/
theorem stop_found_and_not_found_witness :
    "x" ∉ registryKeys (initState 1) ∧ initState 1 = initState 1 ∧
      eventObs (Event.stopNotFound "x") = Obs.stopRet (some (GoError.notFound "x")) :=
  (stop_found_and_not_found (initState 1) (initState 1) "x").1
    (Step.stopNotFound (by decide))

/-- Claim C7: New rejects every negative capacity with the
invalidConfiguration error and returns no Worker; New 0 succeeds,
and on the capacity-0 Worker no admission ever happens in any
execution. -/
theorem new_negative_rejected_zero_degenerate :
    (∀ cap : Int, cap < 0 → NewW cap = Except.error GoError.invalidConfiguration) ∧
    NewW 0 = Except.ok (initState 0) ∧
    (∀ tr s, Trace (initState 0) tr s →
      Event.startTok ∉ tr ∧ ∀ k cd now, Event.startReg k cd now ∉ tr) := by
  refine ⟨fun cap hlt => ?_, rfl, fun tr s h => no_start_when_zero h rfl rfl rfl⟩
  simp [NewW, hlt]

/-- Witness for new_negative_rejected_zero_degenerate: New of
capacity -1. -/
theorem new_negative_rejected_zero_degenerate_witness :
    NewW (-1) = Except.error GoError.invalidConfiguration :=
  new_negative_rejected_zero_degenerate.1 (-1) (by decide)

/-- Claim C9: when Start fails, either because the latch is closed
or because the caller context is done, the Worker state is exactly
as before and the returned id is the empty string together with the
corresponding error. -/
theorem start_failure_atomic (s s' : WState) :
    (Step s Event.startShutdownErr s' →
      s' = s ∧ s.isShutdown = true ∧
      eventObs Event.startShutdownErr = Obs.startRet "" (some GoError.shuttingDown)) ∧
    (Step s Event.startCtxErr s' →
      s' = s ∧
      eventObs Event.startCtxErr = Obs.startRet "" (some GoError.ctxCanceled)) := by
  constructor
  · intro h
    cases h with
    | startShutdownErr hsd => exact ⟨rfl, hsd, rfl⟩
  · intro h
    cases h with
    | startCtxErr => exact ⟨rfl, rfl⟩

/-- Witness for start_failure_atomic: a Start whose caller context
is done on a fresh capacity-1 Worker. -/
theorem start_failure_atomic_witness :
    initState 1 = initState 1 ∧
      eventObs Event.startCtxErr = Obs.startRet "" (some GoError.ctxCanceled) :=
  (start_failure_atomic (initState 1) (initState 1)).2 Step.startCtxErr

/-- Claim C10: invoking Shutdown again once the latch is closed is a
close of an already closed channel, which panics; the state is
unchanged, so in particular the second call invokes no cancel
function, and the normal shutdownBegin transition is impossible from
such a state. -/
theorem shutdown_twice_close_of_closed (s : WState) (h : s.isShutdown = true) :
    Step s Event.shutdownAgain s ∧
    eventObs Event.shutdownAgain = Obs.panicked ∧
    (∀ s', Step s Event.shutdownAgain s' → s' = s) ∧
    (∀ s', ¬ Step s Event.shutdownBegin s') := by
  refine ⟨Step.shutdownAgain h, rfl, ?_, ?_⟩
  · intro s' hstep
    cases hstep with
    | shutdownAgain h2 => rfl
  · intro s' hstep
    cases hstep with
    | shutdownBegin h2 => simp [h] at h2

/-- Witness for shutdown_twice_close_of_closed at the post-shutdown
state sShut. -/
theorem shutdown_twice_close_of_closed_witness :
    Step sShut Event.shutdownAgain sShut ∧
    eventObs Event.shutdownAgain = Obs.panicked ∧
    (∀ s', Step sShut Event.shutdownAgain s' → s' = sShut) ∧
    (∀ s', ¬ Step sShut Event.shutdownBegin s') :=
  shutdown_twice_close_of_closed sShut rfl

/-- Claim C2 is refuted by the code: Go select has no case priority
(a ready arm is chosen by uniform pseudo-random selection), so after
Shutdown has closed the latch a Start that finds a free token can
take the sem arm and go on to register and launch its job.  From
the reachable post-shutdown state sShut (capacity 1, latch closed,
token free) the token take is a possible step even though the latch
is closed, the registration of job "a" follows, and Start returns
the key with no error. -/
theorem start_after_shutdown_can_succeed :
    Reachable 1 sShut ∧ sShut.isShutdown = true ∧ 0 < sShut.semAvail ∧
    Step sShut Event.startTok
      { capacity := 1, semAvail := 0, isShutdown := true, wgCount := 0,
        pending := 1, drained := false, jobs := [] } ∧
    Step
      { capacity := 1, semAvail := 0, isShutdown := true, wgCount := 0,
        pending := 1, drained := false, jobs := [] }
      (Event.startReg "a" none 0)
      { capacity := 1, semAvail := 0, isShutdown := true, wgCount := 1,
        pending := 0, drained := false,
        jobs := [{ key := "a",
                   ctx := withDeadlineFromBackground (deriveDeadline none 0),
                   phase := Phase.runningFn, exitKind := none }] } ∧
    eventObs (Event.startReg "a" none 0) = Obs.startRet "a" none := by
  refine ⟨⟨[Event.shutdownBegin], ?_⟩, rfl, by decide, ?_, ?_, rfl⟩
  · exact Trace.cons (Step.shutdownBegin rfl) Trace.nil
  · exact Step.startTok (by decide)
  · exact Step.startReg (by decide) (by decide)

/-- Claim C3: per admitted job, the registry deregistration and the
token release each happen at most once in any execution, exactly
once by the time the job has fully finished, and when the job
function has just terminated, by either exit path, the pending
deferred cleanup yields exactly one deregistration and one release
for that job. -/
theorem job_cleanup_exactly_once (c : Nat) (tr : List Event) (s : WState)
    (k : String) (h : Trace (initState c) tr s) :
    tr.count (Event.cleanupDereg k) ≤ 1 ∧
    tr.count (Event.cleanupRelease k) ≤ 1 ∧
    (rankAtLeast 5 k s = 1 →
      tr.count (Event.cleanupDereg k) = 1 ∧
      tr.count (Event.cleanupRelease k) = 1) ∧
    (∀ pre j post, s.jobs = pre ++ j :: post → j.key = k →
      j.phase = Phase.exitedFn →
      ∃ t s2, Trace s t s2 ∧
        (tr ++ t).count (Event.cleanupDereg k) = 1 ∧
        (tr ++ t).count (Event.cleanupRelease k) = 1) := by
  have hinv : Inv c s := inv_trace h (inv_init c)
  have hd := count_trace_dereg h k
  have hr := count_trace_release h k
  simp only [rankAtLeast_init, Nat.zero_add] at hd hr
  have hkc := keyCount_le_one hinv k
  have h35 : rankAtLeast 5 k s ≤ rankAtLeast 3 k s :=
    rankAtLeast_mono (by omega) k s
  have h3k : rankAtLeast 3 k s ≤ keyCount k s := rankAtLeast_le_keyCount 3 k s
  have h5k : rankAtLeast 5 k s ≤ keyCount k s := rankAtLeast_le_keyCount 5 k s
  refine ⟨by omega, by omega, fun h5 => ⟨by omega, by omega⟩, ?_⟩
  intro pre j post hs hk hp
  subst hk
  obtain ⟨s2, htail, hjobs⟩ := cleanup_from_exited hs hp
  have hz : rankAtLeast 3 j.key s = 0 :=
    rankAtLeast_eq_zero_of_low hs (by simp [hp, Phase.rank]) (keyCount_le_one hinv j.key)
  have hz5 : rankAtLeast 5 j.key s = 0 :=
    rankAtLeast_eq_zero_of_low hs (by simp [hp, Phase.rank]) (keyCount_le_one hinv j.key)
  have htc : ([Event.cleanupCancel j.key, Event.cleanupDereg j.key,
      Event.cleanupWgDone j.key, Event.cleanupRelease j.key]).count
        (Event.cleanupDereg j.key) = 1 := by
    simp [List.count_cons]
  have htc2 : ([Event.cleanupCancel j.key, Event.cleanupDereg j.key,
      Event.cleanupWgDone j.key, Event.cleanupRelease j.key]).count
        (Event.cleanupRelease j.key) = 1 := by
    simp [List.count_cons]
  refine ⟨_, s2, htail, ?_, ?_⟩
  · rw [List.count_append, htc]
    omega
  · rw [List.count_append, htc2]
    omega

/-- Witness for job_cleanup_exactly_once: the empty execution of a
capacity-1 Worker and the key "a". -/
theorem job_cleanup_exactly_once_witness :
    ([] : List Event).count (Event.cleanupDereg "a") ≤ 1 ∧
    ([] : List Event).count (Event.cleanupRelease "a") ≤ 1 ∧
    (rankAtLeast 5 "a" (initState 1) = 1 →
      ([] : List Event).count (Event.cleanupDereg "a") = 1 ∧
      ([] : List Event).count (Event.cleanupRelease "a") = 1) ∧
    (∀ pre j post, (initState 1).jobs = pre ++ j :: post → j.key = "a" →
      j.phase = Phase.exitedFn →
      ∃ t s2, Trace (initState 1) t s2 ∧
        (([] : List Event) ++ t).count (Event.cleanupDereg "a") = 1 ∧
        (([] : List Event) ++ t).count (Event.cleanupRelease "a") = 1) :=
  job_cleanup_exactly_once 1 [] (initState 1) "a" Trace.nil

/-- Claim C8: the cleanup always performs cancel, then removeWork,
then the token release: in every prefix of every execution the
release count of a key never exceeds its deregistration count, which
never exceeds its cancel count, and once the job has fully finished
all three have happened exactly once. -/
theorem cleanup_order_cancel_dereg_release (c : Nat) (p q : List Event)
    (s : WState) (k : String) (h : Trace (initState c) (p ++ q) s) :
    p.count (Event.cleanupRelease k) ≤ p.count (Event.cleanupDereg k) ∧
    p.count (Event.cleanupDereg k) ≤ p.count (Event.cleanupCancel k) ∧
    (rankAtLeast 5 k s = 1 →
      (p ++ q).count (Event.cleanupCancel k) = 1 ∧
      (p ++ q).count (Event.cleanupDereg k) = 1 ∧
      (p ++ q).count (Event.cleanupRelease k) = 1) := by
  obtain ⟨m, h1, h2⟩ := trace_append_split h
  have hc1 := count_trace_cancel h1 k
  have hd1 := count_trace_dereg h1 k
  have hr1 := count_trace_release h1 k
  simp only [rankAtLeast_init, Nat.zero_add] at hc1 hd1 hr1
  have m23 : rankAtLeast 3 k m ≤ rankAtLeast 2 k m :=
    rankAtLeast_mono (by omega) k m
  have m35 : rankAtLeast 5 k m ≤ rankAtLeast 3 k m :=
    rankAtLeast_mono (by omega) k m
  have hinv : Inv c s := inv_trace h (inv_init c)
  have hc := count_trace_cancel h k
  have hd := count_trace_dereg h k
  have hr := count_trace_release h k
  simp only [rankAtLeast_init, Nat.zero_add] at hc hd hr
  have hkc := keyCount_le_one hinv k
  have s23 : rankAtLeast 3 k s ≤ rankAtLeast 2 k s :=
    rankAtLeast_mono (by omega) k s
  have s35 : rankAtLeast 5 k s ≤ rankAtLeast 3 k s :=
    rankAtLeast_mono (by omega) k s
  have s2k : rankAtLeast 2 k s ≤ keyCount k s := rankAtLeast_le_keyCount 2 k s
  exact ⟨by omega, by omega, fun h5 => ⟨by omega, by omega, by omega⟩⟩

/-- Witness for cleanup_order_cancel_dereg_release: the execution of
a capacity-1 Worker consisting of the single shutdown event, split
into that event and the empty suffix. -/
theorem cleanup_order_cancel_dereg_release_witness :
    ([Event.shutdownBegin]).count (Event.cleanupRelease "a")
      ≤ ([Event.shutdownBegin]).count (Event.cleanupDereg "a") ∧
    ([Event.shutdownBegin]).count (Event.cleanupDereg "a")
      ≤ ([Event.shutdownBegin]).count (Event.cleanupCancel "a") ∧
    (rankAtLeast 5 "a" sShut = 1 →
      ([Event.shutdownBegin] ++ ([] : List Event)).count (Event.cleanupCancel "a") = 1 ∧
      ([Event.shutdownBegin] ++ ([] : List Event)).count (Event.cleanupDereg "a") = 1 ∧
      ([Event.shutdownBegin] ++ ([] : List Event)).count (Event.cleanupRelease "a") = 1) :=
  cleanup_order_cancel_dereg_release 1 [Event.shutdownBegin] [] sShut "a"
    (Trace.cons (Step.shutdownBegin rfl) Trace.nil)

end GoWorker
